import Mathlib

set_option maxRecDepth 8000

/-! Shallow embedding of the sec-certs CPE/CVE matching core
(`sec_certs/model/cpe_matching.py` and `sec_certs/dataset/cve.py`).

Modelling conventions:
* Python strings are lists of characters (`PStr`); `str.lower`, `str.upper`
  and the regex character class `\W` are modelled at ASCII level.
* `None` and absent values are `Option`; raised exceptions are `Except`
  (`IndexError`, `KeyError`).
* Python `set`s are insertion-ordered duplicate-free lists, Python `dict`s
  insertion-ordered association lists with insert-overwrites-in-place.
* The rapidfuzz similarity primitives (`fuzz.token_set_ratio`,
  `fuzz.partial_ratio`, scores in 0..100) are an external third-party
  library, outside this repository; they are modelled as an abstract
  scoring oracle (`FuzzOracle`) the matcher is parameterised by.
-/

abbrev PStr := List Char

def pstr (s : String) : PStr := s.data

deriving instance DecidableEq for Except

/-- Python `str.lower` on one character (ASCII range, `A`-`Z` code 65..90). -/
def pyLowerChar (c : Char) : Char :=
  if 65 ≤ c.toNat ∧ c.toNat ≤ 90 then Char.ofNat (c.toNat + 32) else c

/-- Python `str.upper` on one character (ASCII range, `a`-`z` code 97..122). -/
def pyUpperChar (c : Char) : Char :=
  if 97 ≤ c.toNat ∧ c.toNat ≤ 122 then Char.ofNat (c.toNat - 32) else c

/-- Python `str.lower` (ASCII model). -/
def pyLower (s : PStr) : PStr := s.map pyLowerChar

/-- Python `str.upper` (ASCII model). -/
def pyUpper (s : PStr) : PStr := s.map pyUpperChar

/-- A regex `\w` character: alphanumeric or underscore (ASCII model of the
unicode-aware class used by `re.compile(r"(?ui)\W")`). -/
def isWordChar (c : Char) : Bool := c.isAlphanum || c = '_'

/-- Python `str.strip()`: drop leading and trailing whitespace. -/
def pstrip (s : PStr) : PStr :=
  ((s.dropWhile Char.isWhitespace).reverse.dropWhile Char.isWhitespace).reverse

/-- Python `s.split(sep)` for a one-character separator: keeps empty pieces. -/
def splitOnChar (sep : Char) : PStr → List PStr
  | [] => [[]]
  | c :: t =>
    if c = sep then [] :: splitOnChar sep t
    else
      match splitOnChar sep t with
      | [] => [[c]]
      | h :: r => (c :: h) :: r

/-- Helper for `splitWhitespace`: split at every whitespace character. -/
def splitAtWs : PStr → List PStr
  | [] => [[]]
  | c :: t =>
    if c.isWhitespace then [] :: splitAtWs t
    else
      match splitAtWs t with
      | [] => [[c]]
      | h :: r => (c :: h) :: r

/-- Python `s.split()` with no argument: split on whitespace runs, dropping
empty pieces. -/
def splitWhitespace (s : PStr) : List PStr := (splitAtWs s).filter (fun p => p ≠ [])

/-- Python `' '.join(parts)`. -/
def joinSpace : List PStr → PStr
  | [] => []
  | [x] => x
  | x :: y :: t => x ++ ' ' :: joinSpace (y :: t)

/-- Add an element to a Python set, modelled as an insertion-ordered
duplicate-free list; adding a present element keeps the existing one. -/
def setAdd {α} [DecidableEq α] (x : α) (l : List α) : List α :=
  if x ∈ l then l else l ++ [x]

/-- Collapse a list to a Python set (first occurrence kept, order preserved). -/
def dedupFirst {α} [DecidableEq α] (l : List α) : List α :=
  l.foldl (fun acc x => setAdd x acc) []

/-- Python `dict` lookup (`d[k]` successful case / `k in d` test). -/
def dictLookup {κ ν} [DecidableEq κ] : List (κ × ν) → κ → Option ν
  | [], _ => none
  | (k1, v1) :: t, k => if k1 = k then some v1 else dictLookup t k

/-- Python `d[k] = v`: overwrite in place if the key exists, else append. -/
def dictInsert {κ ν} [DecidableEq κ] (k : κ) (v : ν) : List (κ × ν) → List (κ × ν)
  | [] => [(k, v)]
  | (k1, v1) :: t => if k1 = k then (k1, v) :: t else (k1, v1) :: dictInsert k v t

/-- Python `del d[k]` after a successful `k in d` test. -/
def dictErase {κ ν} [DecidableEq κ] (k : κ) (d : List (κ × ν)) : List (κ × ν) :=
  d.filter (fun p => p.1 ≠ k)

/-- Remove every occurrence of `pat` from `s` (Python `s.replace(pat, '')`),
scanning left to right; fuel-driven recursion (`s.length` always suffices). -/
def removeAllFuel (pat : PStr) : Nat → PStr → PStr
  | _, [] => []
  | 0, s => s
  | fuel + 1, c :: t =>
    if pat ≠ [] ∧ pat.isPrefixOf (c :: t) then
      removeAllFuel pat fuel ((c :: t).drop pat.length)
    else
      c :: removeAllFuel pat fuel t

/-- Python `s.replace(pat, '')`; `pat = ''` leaves the string unchanged. -/
def removeAll (pat s : PStr) : PStr :=
  if pat = [] then s else removeAllFuel pat s.length s

/-- Does `s` contain a digit, a dot and a digit in immediate succession?
This is exactly when `re.search(r"(\d{1,5})(\.\d{1,5})", s)` succeeds: any
match of that pattern ends group 1 with a digit directly before the dot and
starts group 2 with a digit directly after it, and conversely such a triple
is itself a match with both counts equal to one. -/
def hasDigitDotDigit : PStr → Bool
  | a :: b :: c :: t => (a.isDigit && b = '.' && c.isDigit) || hasDigitDotDigit (b :: c :: t)
  | _ => false

example : pstr "ab" = ['a', 'b'] := by decide
example : pyLower (pstr "AbC") = pstr "abc" := by decide
example : pyUpper (pstr "cve-1") = pstr "CVE-1" := by decide
example : splitOnChar ',' (pstr "a,,b") = [pstr "a", [], pstr "b"] := by decide
example : splitWhitespace (pstr " a  bc ") = [pstr "a", pstr "bc"] := by decide
example : pstrip (pstr "  a b ") = pstr "a b" := by decide
example : removeAll (pstr "ab") (pstr "xabyab") = pstr "xy" := by decide
example : hasDigitDotDigit (pstr "v1.2x") = true := by decide
example : hasDigitDotDigit (pstr "1.x2") = false := by decide

/-! ## Identifier records and the classifier (`sec_certs/model/cpe_matching.py`) -/

/-- Modelled from the spec: the `CPE` sample class (`sec_certs.sample.cpe`) is
not part of the given sources; per the data model an identifier record carries
`uri` (unique key), optional free-text `title`, `vendor`, `item_name` and
`version`, and records are hashable/equal by `uri`.  Only the fields the
matching core reads are included. -/
structure CPE where
  uri : PStr
  title : Option PStr
  vendor : PStr
  item_name : PStr
  version : PStr
deriving DecidableEq, Repr

/-- Python set-membership of a record in a set of records: records compare
equal by `uri` (spec data model). -/
def cpeInSet (x : CPE) (s : List CPE) : Bool := s.any (fun c => c.uri = x.uri)

/-- Add a record to a Python set of records (equality by `uri`; a present
element is kept). -/
def cpeSetAdd (c : CPE) (l : List CPE) : List CPE :=
  if cpeInSet c l then l else l ++ [c]

/-- `CPEClassifier.__init__` configuration plus the three lookup structures
built by `fit` / `build_lookup_structures`. -/
structure CPEClassifier where
  match_threshold : Nat
  n_max_matches : Nat
  vendor_to_versions_ : List (PStr × List PStr)
  vendor_version_to_cpe_ : List ((PStr × PStr) × List CPE)
  vendors_ : List PStr
deriving DecidableEq, Repr

/-- The external rapidfuzz scoring primitives (`fuzz.token_set_ratio` and
`fuzz.partial_ratio`), abstracted: this repository only composes them. -/
structure FuzzOracle where
  token_set_ratio : PStr → PStr → Nat
  part_ratio : PStr → PStr → Nat

/-- `CPEClassifier._discard_trademark_symbols`. -/
def discard_trademark_symbols (s : PStr) : PStr :=
  s.filter (fun c => ¬(c = '®' ∨ c = '™'))

/-- `CPEClassifier._replace_special_chars_with_space`. -/
def replace_special_chars_with_space (s : PStr) : PStr :=
  s.map (fun c => if isWordChar c then c else ' ')

/-- `CPEClassifier._fully_sanitize_string`. -/
def fully_sanitize_string (s : PStr) : PStr :=
  replace_special_chars_with_space (discard_trademark_symbols (pyLower s))

/-- `CPEClassifier._strip_manufacturer_and_version`. -/
def strip_manufacturer_and_version (s : PStr) (manufacturers versions : List PStr) : PStr :=
  (manufacturers ++ versions).foldl
    (fun acc x => pstrip (removeAll (replace_special_chars_with_space (pyLower x)) (pyLower acc)))
    s

/-- `CPEClassifier.filter_short_cpes`. -/
def filter_short_cpes (cpes : List CPE) : List CPE :=
  cpes.filter (fun x => 3 < x.item_name.length)

/-- One step of the `build_lookup_structures` main loop: record `cpe.version`
under `cpe.vendor` and the record itself under `(cpe.vendor, cpe.version)`. -/
def buildStep (st : List (PStr × List PStr) × List ((PStr × PStr) × List CPE)) (cpe : CPE) :
    List (PStr × List PStr) × List ((PStr × PStr) × List CPE) :=
  (st.1.map (fun p => if p.1 = cpe.vendor then (p.1, setAdd cpe.version p.2) else p),
   match dictLookup st.2 (cpe.vendor, cpe.version) with
   | none => st.2 ++ [((cpe.vendor, cpe.version), [cpe])]
   | some s => dictInsert (cpe.vendor, cpe.version) (cpeSetAdd cpe s) st.2)

/-- `CPEClassifier.fit` / `build_lookup_structures`: filter to records with
`len(item_name) > 3`, seed `vendor_to_versions_` with empty version sets,
then fold the main loop.  (`self.vendor_to_versions_[cpe.vendor].add` is
modelled by updating the existing key, which the seeding guarantees is
present.) -/
def fitClassifier (match_threshold n_max_matches : Nat) (X : List CPE) : CPEClassifier :=
  let long := filter_short_cpes X
  let v2v0 : List (PStr × List PStr) := long.foldl (fun d x => dictInsert x.vendor [] d) []
  let st := long.foldl buildStep (v2v0, [])
  { match_threshold := match_threshold
    n_max_matches := n_max_matches
    vendor_to_versions_ := st.1
    vendor_version_to_cpe_ := st.2
    vendors_ := v2v0.map (fun p => p.1) }

/-- `CPEClassifier.get_candidate_list_of_vendors`, fuel-driven because of the
two self-calls (separator splitting and the leading-article retry); the
`IndexError` value models `tokenized[0]` on an all-whitespace input.
`self.vendors_` is the only classifier state the method reads, so it is the
parameter here. -/
def gclov (vendors_ : List PStr) : Nat → PStr → Except String (Option (List PStr))
  | fuel, m =>
    if m = [] then .ok none
    else
      let splits := m.filter (fun c => c = ',' ∨ c = '/')
      if splits ≠ [] then
        match fuel with
        | 0 => .error "fuel"
        | fuel + 1 => do
          let vendor_tokens :=
            dedupFirst ((splits.map (fun s => (splitOnChar s m).map pstrip)).flatten)
          let results ← vendor_tokens.mapM (gclov vendors_ fuel)
          let flat := dedupFirst (((results.filterMap id).filter (fun l => l ≠ [])).flatten)
          .ok (if flat = [] then none else some flat)
      else
        let r0 : List PStr := if m ∈ vendors_ then [m] else []
        match splitWhitespace m with
        | [] => .error "IndexError"
        | t0 :: rest =>
          let r1 := if t0 ∈ vendors_ then setAdd t0 r0 else r0
          let r2 :=
            match rest with
            | [] => r1
            | t1 :: _ => if (t0 ++ t1) ∈ vendors_ then setAdd (t0 ++ t1) r1 else r1
          let toks := t0 :: rest
          let r3 :=
            if pstr "hewlett" ∈ toks ∨ pstr "hewlett-packard" ∈ toks ∨ m = pstr "hewlett packard"
            then setAdd (pstr "hp") r2 else r2
          let r4 :=
            if pstr "thales" ∈ toks
            then setAdd (pstr "thalesgroup") (setAdd (pstr "thalesesecurity") r3) else r3
          let r5 := if pstr "stmicroelectronics" ∈ toks then setAdd (pstr "st") r4 else r4
          let r6 :=
            if pstr "athena" ∈ toks ∧ pstr "smartcard" ∈ toks
            then setAdd (pstr "athena-scs") r5 else r5
          if t0 = pstr "the" ∧ r6 = [] then
            match fuel with
            | 0 => .error "fuel"
            | fuel + 1 => gclov vendors_ fuel (joinSpace rest)
          else .ok (if r6 = [] then none else some r6)

/-- `CPEClassifier.get_candidate_list_of_vendors` at adequate fuel. -/
def get_candidate_list_of_vendors (cl : CPEClassifier) (m : PStr) :
    Except String (Option (List PStr)) :=
  gclov cl.vendors_ (m.length + 1) m

/-- The local predicate `is_cpe_version_among_cert_versions` of
`get_candidate_vendor_version_pairs`. -/
def is_cpe_version_among_cert_versions (cpe_version : PStr) (cert_versions : List PStr) : Bool :=
  cert_versions.any (fun v =>
    (cpe_version.isPrefixOf v && hasDigitDotDigit cpe_version) || v.isPrefixOf cpe_version)

/-- `CPEClassifier.get_candidate_vendor_version_pairs`; an unknown vendor key
raises `KeyError` (`self.vendor_to_versions_[vendor]`). -/
def get_candidate_vendor_version_pairs (cl : CPEClassifier)
    (cert_candidate_cpe_vendors : Option (List PStr)) (cert_candidate_versions : List PStr) :
    Except String (Option (List (PStr × PStr))) :=
  match cert_candidate_cpe_vendors with
  | none => .ok none
  | some vs =>
    if vs = [] then .ok none
    else do
      let pairLists ← vs.mapM (fun vendor =>
        match dictLookup cl.vendor_to_versions_ vendor with
        | none => .error "KeyError"
        | some viable =>
          .ok ((viable.filter (fun x => is_cpe_version_among_cert_versions x cert_candidate_versions)).map
            (fun x => (vendor, x))))
      .ok (some pairLists.flatten)

/-- `CPEClassifier.get_candidate_cpe_matches`. -/
def get_candidate_cpe_matches (cl : CPEClassifier)
    (candidate_vendors : Option (List PStr)) (candidate_versions : List PStr) :
    Except String (List CPE) := do
  let pairs ← get_candidate_vendor_version_pairs cl candidate_vendors candidate_versions
  match pairs with
  | none => .ok []
  | some [] => .ok []
  | some ps => do
    let lists ← ps.mapM (fun pr =>
      match dictLookup cl.vendor_version_to_cpe_ pr with
      | none => .error "KeyError"
      | some s => .ok s)
    .ok lists.flatten

/-- `CPEClassifier.compute_best_match`: maximum of the four rapidfuzz scores;
`cpe.title` falsy (absent or empty) falls back to the sanitized
`vendor + ' ' + item_name + ' ' + version`. -/
def compute_best_match (o : FuzzOracle) (cpe : CPE) (product_name : PStr)
    (candidate_vendors : List PStr) (versions : List PStr) : Nat :=
  let fallback := fully_sanitize_string (cpe.vendor ++ ' ' :: cpe.item_name ++ ' ' :: cpe.version)
  let sanitized_title :=
    match cpe.title with
    | some t => if t ≠ [] then fully_sanitize_string t else fallback
    | none => fallback
  let sanitized_item_name := fully_sanitize_string cpe.item_name
  let cert_stripped := strip_manufacturer_and_version product_name candidate_vendors versions
  Nat.max (o.token_set_ratio product_name sanitized_title)
    (Nat.max (o.part_ratio product_name sanitized_title)
      (Nat.max (o.token_set_ratio cert_stripped sanitized_item_name)
        (o.part_ratio cert_stripped sanitized_item_name)))

/-- Lines 62-67 of `predict_single_cert`: sanitize the inputs, resolve the
candidate vendors, collect the candidate pool, and pair each candidate with
its score (`zip(ratings, candidates)`), in candidate enumeration order. -/
def scored_candidates (cl : CPEClassifier) (o : FuzzOracle)
    (vendor product_name : PStr) (versions : List PStr) :
    Except String (List (Nat × CPE)) := do
  let sanitized_vendor := if vendor ≠ [] then pyLower (discard_trademark_symbols vendor) else vendor
  let sanitized_product_name := if product_name ≠ [] then fully_sanitize_string product_name else product_name
  let candidate_vendors ← get_candidate_list_of_vendors cl sanitized_vendor
  let candidates ← get_candidate_cpe_matches cl candidate_vendors versions
  .ok (candidates.map (fun cpe =>
    (compute_best_match o cpe sanitized_product_name (candidate_vendors.getD []) versions, cpe)))

/-- `predict_single_cert` with `relax_version=False`: threshold is
`self.match_threshold` (line 68), no retry; `final_matches[:n_max_matches]`
uris, or `None` when no match survives. -/
def predict_single_cert_strict (cl : CPEClassifier) (o : FuzzOracle)
    (vendor product_name : PStr) (versions : List PStr) :
    Except String (Option (List PStr)) := do
  let zs ← scored_candidates cl o vendor product_name versions
  let final_matches := zs.filter (fun x => cl.match_threshold ≤ x.1)
  .ok (if final_matches = [] then none
       else some ((final_matches.take cl.n_max_matches).map (fun x => x.2.uri)))

/-- `CPEClassifier.predict_single_cert`.  With `relax_version=True` the
threshold is `100` (line 68: `self.match_threshold if not relax_version else
100`), and an empty first pass re-invokes the algorithm once with versions
`['-']` and `relax_version=False`; the single self-call is unrolled into
`predict_single_cert_strict`. -/
def predict_single_cert (cl : CPEClassifier) (o : FuzzOracle)
    (vendor product_name : PStr) (versions : List PStr) (relax_version : Bool) :
    Except String (Option (List PStr)) :=
  if relax_version then do
    let zs ← scored_candidates cl o vendor product_name versions
    let final_matches := zs.filter (fun x => 100 ≤ x.1)
    if final_matches = [] then
      predict_single_cert_strict cl o vendor product_name [pstr "-"]
    else
      .ok (some ((final_matches.take cl.n_max_matches).map (fun x => x.2.uri)))
  else
    predict_single_cert_strict cl o vendor product_name versions

/-! ## Vulnerability records and the dataset (`sec_certs/dataset/cve.py`) -/

/-- Modelled from the spec: the `CPEConfiguration` sample class is not part of
the given sources; a compound configuration is a platform record plus a list
of component records (`platform` and `cpes` are the attribute names used by
`cve.py`). -/
structure CPEConfiguration where
  platform : CPE
  cpes : List CPE
deriving DecidableEq, Repr

/-- Modelled from the spec: the `CVE` sample class is not part of the given
sources; a vulnerability record has an `cve_id`, the directly matched
identifier list `vulnerable_cpes` and the compound configuration list
`vulnerable_cpe_configurations` (the attributes `cve.py` reads). -/
structure CVE where
  cve_id : PStr
  vulnerable_cpes : List CPE
  vulnerable_cpe_configurations : List CPEConfiguration
deriving DecidableEq, Repr

/-- Modelled from the spec: `CPEConfiguration.matches(set_of_uris)` holds iff
the platform uri is in the set and at least one component uri is in the set. -/
def CPEConfiguration.matches (cfg : CPEConfiguration) (cpe_uris : List PStr) : Bool :=
  decide (cfg.platform.uri ∈ cpe_uris) && cfg.cpes.any (fun y => decide (y.uri ∈ cpe_uris))

/-- `CVEDataset` state: the corpus dict plus the two derived lookup
structures built by `build_lookup_dict`. -/
structure CVEDataset where
  cves : List (PStr × CVE)
  cpe_to_cve_ids_lookup : List (PStr × List PStr)
  cves_with_vulnerable_configurations : List CVE
deriving DecidableEq, Repr

/-- `CVEDataset.__getitem__`: looks up the upper-cased key; `none` models the
`KeyError` a missing key raises. -/
def CVEDataset.getItem (d : CVEDataset) (item : PStr) : Option CVE :=
  dictLookup d.cves (pyUpper item)

/-- `CVEDataset.__setitem__`: stores the value under the lower-cased key. -/
def CVEDataset.setItem (d : CVEDataset) (key : PStr) (v : CVE) : CVEDataset :=
  { d with cves := dictInsert (pyLower key) v d.cves }

/-- Add `cve_id` to the uri's entry of `cpe_to_cve_ids_lookup` (the inner
loop of `build_lookup_dict`). -/
def lookupAdd (lk : List (PStr × List PStr)) (uri cve_id : PStr) : List (PStr × List PStr) :=
  match dictLookup lk uri with
  | none => lk ++ [(uri, [cve_id])]
  | some s => dictInsert uri (setAdd cve_id s) lk

/-- The identifier list `build_lookup_dict` indexes one record by: the NIST
compound-mapping expansion when `use_nist_mapping` is true (identifiers
absent from the map are dropped, `matching_dict.get(cpe, [])`), else the raw
`vulnerable_cpes`.  The mapping itself is produced by network retrieval
(`get_nist_cpe_matching_dict`), outside the core, so it is a parameter. -/
def vulnConfigurations (use_nist : Bool) (matching_dict : CPE → Option (List CPE)) (cve : CVE) :
    List CPE :=
  if use_nist then (cve.vulnerable_cpes.map (fun cpe => (matching_dict cpe).getD [])).flatten
  else cve.vulnerable_cpes

/-- Line 76 of `build_lookup_dict`:
`self.cves = {x.cve_id.upper(): x for x in self}` — re-key the corpus by
upper-cased id, later records winning a collision. -/
def rekeyCves (pairs : List (PStr × CVE)) : List (PStr × CVE) :=
  (pairs.map (fun p => p.2)).foldl (fun acc x => dictInsert (pyUpper x.cve_id) x acc) []

/-- The main loop of `build_lookup_dict`: rebuild `cpe_to_cve_ids_lookup`
from scratch over the (re-keyed) corpus values. -/
def buildLookupFold (use_nist : Bool) (matching_dict : CPE → Option (List CPE))
    (values : List CVE) : List (PStr × List PStr) :=
  values.foldl
    (fun lk cve =>
      (vulnConfigurations use_nist matching_dict cve).foldl
        (fun lk2 cpe => lookupAdd lk2 cpe.uri cve.cve_id) lk)
    []

/-- `CVEDataset.build_lookup_dict`: re-key the corpus by upper-cased id,
rebuild `cpe_to_cve_ids_lookup` from scratch, and filter the records holding
at least one compound configuration
(`_filter_cves_with_cpe_configurations`). -/
def build_lookup_dict (d : CVEDataset) (use_nist : Bool)
    (matching_dict : CPE → Option (List CPE)) : CVEDataset :=
  { cves := rekeyCves d.cves
    cpe_to_cve_ids_lookup :=
      buildLookupFold use_nist matching_dict ((rekeyCves d.cves).map (fun p => p.2))
    cves_with_vulnerable_configurations :=
      ((rekeyCves d.cves).map (fun p => p.2)).filter
        (fun c => c.vulnerable_cpe_configurations ≠ []) }

/-- `CVEDataset._get_cve_ids_for_cpe_uri`: missing uri gives the empty set. -/
def get_cve_ids_for_cpe_uri (d : CVEDataset) (cpe_uri : PStr) : List PStr :=
  (dictLookup d.cpe_to_cve_ids_lookup cpe_uri).getD []

/-- `CVEDataset._get_cves_from_exactly_matched_cpes`. -/
def get_cves_from_exactly_matched_cpes (d : CVEDataset) (cpe_uris : List PStr) : List PStr :=
  dedupFirst ((cpe_uris.map (get_cve_ids_for_cpe_uri d)).flatten)

/-- `CVEDataset._get_cves_from_cpe_configurations`. -/
def get_cves_from_cpe_configurations (d : CVEDataset) (cpe_uris : List PStr) : List PStr :=
  (d.cves_with_vulnerable_configurations.filter
    (fun cve => cve.vulnerable_cpe_configurations.any (fun cfg => cfg.matches cpe_uris))).map
    (fun cve => cve.cve_id)

/-- `CVEDataset.get_cves_from_matched_cpes`: union of the exact and the
compound-configuration matches. -/
def get_cves_from_matched_cpes (d : CVEDataset) (cpe_uris : List PStr) : List PStr :=
  dedupFirst (get_cves_from_exactly_matched_cpes d cpe_uris ++
    get_cves_from_cpe_configurations d cpe_uris)

/-- The membership test `x.platform.uri in relevant_cpes` (and likewise
`y.uri in relevant_cpes`) of `filter_related_cpes` compares a raw uri string
against a set of CPE records.  A record compares equal only to another record
(spec data model: records are hashable/equal by uri), never to a string, so
the test never succeeds. -/
def uriEqCpe (_u : PStr) (_c : CPE) : Bool := false

/-- Python `uri in relevant_cpes` with `uri` a string and `relevant_cpes` a
set of records. -/
def uriInCpeSet (u : PStr) (s : List CPE) : Bool := s.any (uriEqCpe u)

/-- The per-record mutation of `filter_related_cpes`: keep the directly
listed identifiers that are in `relevant_cpes`, and the compound
configurations whose platform uri and at least one component uri pass the
(string-vs-record) membership test. -/
def pruneCve (relevant_cpes : List CPE) (cve : CVE) : CVE :=
  { cve with
    vulnerable_cpes := cve.vulnerable_cpes.filter (fun x => cpeInSet x relevant_cpes)
    vulnerable_cpe_configurations := cve.vulnerable_cpe_configurations.filter
      (fun x => uriInCpeSet x.platform.uri relevant_cpes &&
        x.cpes.any (fun y => uriInCpeSet y.uri relevant_cpes)) }

/-- `CVEDataset.filter_related_cpes`: prune every record in place, then
delete (by `del self.cves[cve_id]`, which raises `KeyError` when the record's
id is not literally a key of the corpus dict) every record left with no
directly listed identifier. -/
def delStep (pairs : List (PStr × CVE)) (cid : PStr) : Except String (List (PStr × CVE)) :=
  if (pairs.map (fun p => p.1)).contains cid then Except.ok (dictErase cid pairs)
  else Except.error "KeyError"

def filter_related_cpes (d : CVEDataset) (relevant_cpes : List CPE) :
    Except String CVEDataset := do
  let newPairs := d.cves.map (fun p => (p.1, pruneCve relevant_cpes p.2))
  let toDelete := ((newPairs.map (fun p => p.2)).filter
    (fun c => c.vulnerable_cpes = [])).map (fun c => c.cve_id)
  let finalPairs ← toDelete.foldlM delStep newPairs
  .ok { d with cves := finalPairs }

/-! ## Claim-variant definitions and concrete instances -/

/-- The strict pass as claim C1 describes it: threshold `100` on the
version-relaxed re-invocation. -/
def predict_strict_claimed (cl : CPEClassifier) (o : FuzzOracle)
    (vendor product_name : PStr) (versions : List PStr) :
    Except String (Option (List PStr)) := do
  let zs ← scored_candidates cl o vendor product_name versions
  let final_matches := zs.filter (fun x => 100 ≤ x.1)
  .ok (if final_matches = [] then none
       else some ((final_matches.take cl.n_max_matches).map (fun x => x.2.uri)))

/-- `predict_single_cert` as claim C1 describes it: the first
(strict-version) pass filters by `score >= match_threshold`, and the
automatic second pass (first pass empty, versions forced to `['-']`,
`relax_version=False`) filters by `score >= 100`. -/
def predict_single_cert_claimed (cl : CPEClassifier) (o : FuzzOracle)
    (vendor product_name : PStr) (versions : List PStr) (relax_version : Bool) :
    Except String (Option (List PStr)) :=
  if relax_version then do
    let zs ← scored_candidates cl o vendor product_name versions
    let final_matches := zs.filter (fun x => cl.match_threshold ≤ x.1)
    if final_matches = [] then
      predict_strict_claimed cl o vendor product_name [pstr "-"]
    else
      .ok (some ((final_matches.take cl.n_max_matches).map (fun x => x.2.uri)))
  else
    predict_strict_claimed cl o vendor product_name versions

/-- Stable insertion step for a descending sort by score: a new element goes
before the first element whose score it reaches, so earlier-enumerated
elements stay ahead of equal scores. -/
def insertDescByScore (x : Nat × CPE) : List (Nat × CPE) → List (Nat × CPE)
  | [] => [x]
  | y :: t => if y.1 ≤ x.1 then x :: y :: t else y :: insertDescByScore x t

/-- Stable sort by descending score (insertion sort). -/
def sortDescByScore : List (Nat × CPE) → List (Nat × CPE)
  | [] => []
  | x :: t => insertDescByScore x (sortDescByScore t)

/-- The strict pass as claim C2 describes it: sorted by descending score
before the cap (threshold as in the code). -/
def predict_strict_sorted_claimed (cl : CPEClassifier) (o : FuzzOracle)
    (vendor product_name : PStr) (versions : List PStr) :
    Except String (Option (List PStr)) := do
  let zs ← scored_candidates cl o vendor product_name versions
  let final_matches := zs.filter (fun x => cl.match_threshold ≤ x.1)
  .ok (if final_matches = [] then none
       else some (((sortDescByScore final_matches).take cl.n_max_matches).map (fun x => x.2.uri)))

/-- `predict_single_cert` as claim C2 describes it: the filtered candidates
are sorted by descending score (stable tie-break: candidate enumeration
order) before the `n_max_matches` cap is applied.  Thresholds are the
code's (first pass 100, relaxed pass `match_threshold`), isolating the
sorting discrepancy. -/
def predict_single_cert_sorted_claimed (cl : CPEClassifier) (o : FuzzOracle)
    (vendor product_name : PStr) (versions : List PStr) (relax_version : Bool) :
    Except String (Option (List PStr)) :=
  if relax_version then do
    let zs ← scored_candidates cl o vendor product_name versions
    let final_matches := zs.filter (fun x => 100 ≤ x.1)
    if final_matches = [] then
      predict_strict_sorted_claimed cl o vendor product_name [pstr "-"]
    else
      .ok (some (((sortDescByScore final_matches).take cl.n_max_matches).map (fun x => x.2.uri)))
  else
    predict_strict_sorted_claimed cl o vendor product_name versions

/-- The length of the relaxed-pass filtered match list at threshold `t`
(0 when candidate collection fails), used to state when the
`n_max_matches` cap performs no truncation. -/
def relaxedFilteredCount (cl : CPEClassifier) (o : FuzzOracle)
    (vendor product_name : PStr) (t : Nat) : Nat :=
  match scored_candidates cl o vendor product_name [pstr "-"] with
  | .ok zs => (zs.filter (fun x => t ≤ x.1)).length
  | .error _ => 0

/-- Concrete record used by the C1 scenario and several witnesses. -/
def cpeA : CPE :=
  { uri := pstr "cpe:2.3:a:v:prod:1.0", title := none, vendor := pstr "v",
    item_name := pstr "prod", version := pstr "1.0" }

/-- An oracle scoring every comparison 85: above the default threshold 80,
below 100. -/
def oracle85 : FuzzOracle :=
  { token_set_ratio := fun _ _ => 85, part_ratio := fun _ _ => 85 }

/-- Classifier fitted on `[cpeA]` with the default configuration
(`match_threshold=80`, `n_max_matches=10`). -/
def clA : CPEClassifier := fitClassifier 80 10 [cpeA]

/-- Two wildcard-version records of one vendor, distinguishable by item
name, for the ordering and monotonicity scenarios. -/
def cpeB1 : CPE :=
  { uri := pstr "cpe:a", title := none, vendor := pstr "v",
    item_name := pstr "aaaa", version := pstr "-" }

def cpeB2 : CPE :=
  { uri := pstr "cpe:b", title := none, vendor := pstr "v",
    item_name := pstr "bbbb", version := pstr "-" }

/-- An oracle scoring 85 against the first item name, 95 against the
second. -/
def oracleAB : FuzzOracle :=
  { token_set_ratio := fun _ t =>
      if t = pstr "aaaa" then 85 else if t = pstr "bbbb" then 95 else 0,
    part_ratio := fun _ _ => 0 }

def clB : CPEClassifier := fitClassifier 80 10 [cpeB1, cpeB2]


/-! ## Helper lemmas -/

theorem toNat_charOfNat (n : Nat) (h : n < 55296) : (Char.ofNat n).toNat = n := by
  have hv : n.isValidChar := Or.inl h
  simp only [Char.ofNat, dif_pos hv]
  rfl

theorem pyLowerChar_idem (c : Char) : pyLowerChar (pyLowerChar c) = pyLowerChar c := by
  unfold pyLowerChar
  by_cases h : 65 ≤ c.toNat ∧ c.toNat ≤ 90
  · simp only [if_pos h]
    rw [if_neg (show ¬(65 ≤ (Char.ofNat (c.toNat + 32)).toNat ∧
      (Char.ofNat (c.toNat + 32)).toNat ≤ 90) by rw [toNat_charOfNat _ (by omega)]; omega)]
  · simp only [if_neg h]

/-- An ASCII letter (the only characters whose Python upper/lower case
differ in the ASCII model). -/
def isAsciiLetter (c : Char) : Bool :=
  (65 ≤ c.toNat && c.toNat ≤ 90) || (97 ≤ c.toNat && c.toNat ≤ 122)

theorem pyUpperChar_ne_pyLowerChar (c : Char) (h : isAsciiLetter c = true) :
    pyUpperChar c ≠ pyLowerChar c := by
  unfold isAsciiLetter at h
  simp only [Bool.or_eq_true, Bool.and_eq_true, decide_eq_true_eq] at h
  unfold pyUpperChar pyLowerChar
  rcases h with h | h
  · rw [if_neg (by omega), if_pos h]
    intro he
    have hn := congrArg Char.toNat he
    rw [toNat_charOfNat _ (by omega)] at hn
    omega
  · rw [if_pos h, if_neg (by omega)]
    intro he
    have hn := congrArg Char.toNat he
    rw [toNat_charOfNat _ (by omega)] at hn
    omega

theorem map_ne_map_of_exists {f g : Char → Char} :
    ∀ l : List Char, (∃ c ∈ l, f c ≠ g c) → l.map f ≠ l.map g := by
  intro l
  induction l with
  | nil => intro h; simp at h
  | cons a t ih =>
    intro h he
    simp only [List.map_cons, List.cons.injEq] at he
    rcases h with ⟨c, hc, hne⟩
    rcases List.mem_cons.mp hc with rfl | hmem
    · exact hne he.1
    · exact ih ⟨c, hmem, hne⟩ he.2

theorem pyUpper_ne_pyLower (k : PStr) (h : ∃ c ∈ k, isAsciiLetter c = true) :
    pyUpper k ≠ pyLower k := by
  apply map_ne_map_of_exists
  rcases h with ⟨c, hc, hl⟩
  exact ⟨c, hc, pyUpperChar_ne_pyLowerChar c hl⟩

theorem dictLookup_dictInsert_self {κ ν} [DecidableEq κ] (k : κ) (v : ν) (d : List (κ × ν)) :
    dictLookup (dictInsert k v d) k = some v := by
  induction d with
  | nil => simp [dictInsert, dictLookup]
  | cons p t ih =>
    by_cases h : p.1 = k
    · simp [dictInsert, dictLookup, h]
    · simp [dictInsert, dictLookup, h, ih]

theorem dictLookup_dictInsert_ne {κ ν} [DecidableEq κ] (k q : κ) (v : ν) (d : List (κ × ν))
    (h : q ≠ k) : dictLookup (dictInsert k v d) q = dictLookup d q := by
  have hkq : ¬(k = q) := fun he => h he.symm
  induction d with
  | nil => simp only [dictInsert, dictLookup]; rw [if_neg hkq]
  | cons p t ih =>
    simp only [dictInsert]
    by_cases hp : p.1 = k
    · rw [if_pos hp]
      simp only [dictLookup]
      have hpq : ¬(p.1 = q) := fun he => hkq (hp.symm.trans he)
      rw [if_neg hpq, if_neg hpq]
    · rw [if_neg hp]
      simp only [dictLookup]
      by_cases hq : p.1 = q
      · rw [if_pos hq, if_pos hq]
      · rw [if_neg hq, if_neg hq, ih]

theorem pyLower_fix_of_mem_map (s : PStr) (x : Char) (hx : x ∈ s.map pyLowerChar) :
    pyLowerChar x = x := by
  rcases List.mem_map.mp hx with ⟨c, _, rfl⟩
  exact pyLowerChar_idem c

theorem replace_special_idem (u : PStr) :
    replace_special_chars_with_space (replace_special_chars_with_space u) =
      replace_special_chars_with_space u := by
  unfold replace_special_chars_with_space
  rw [List.map_map]
  apply List.map_congr_left
  intro c _
  by_cases w : isWordChar c
  · simp [Function.comp, w]
  · simp [Function.comp, w]

/-- C7: `_fully_sanitize_string` is idempotent: for every string `s`,
applying it twice equals applying it once. -/
theorem c7_fully_sanitize_idempotent (s : PStr) :
    fully_sanitize_string (fully_sanitize_string s) = fully_sanitize_string s := by
  unfold fully_sanitize_string discard_trademark_symbols pyLower
  set P : Char → Bool := fun c => decide (¬(c = '®' ∨ c = '™')) with hP
  set t : PStr := (s.map pyLowerChar).filter P with htdef
  have hfixR : ∀ x ∈ t, pyLowerChar (if isWordChar x then x else ' ') =
      (if isWordChar x then x else ' ') := by
    intro x hx
    by_cases w : isWordChar x
    · simp only [if_pos w]
      exact pyLower_fix_of_mem_map s x (List.mem_filter.mp hx).1
    · simp only [if_neg w]
      decide
  have step1 : ((replace_special_chars_with_space t).map pyLowerChar) =
      replace_special_chars_with_space t := by
    unfold replace_special_chars_with_space
    rw [List.map_map]
    exact List.map_congr_left hfixR
  have step2 : (replace_special_chars_with_space t).filter P =
      replace_special_chars_with_space t := by
    apply List.filter_eq_self.mpr
    intro a ha
    unfold replace_special_chars_with_space at ha
    rcases List.mem_map.mp ha with ⟨x, hx, rfl⟩
    by_cases w : isWordChar x
    · simp only [if_pos w]
      exact (List.mem_filter.mp hx).2
    · simp only [if_neg w]
      decide
  calc replace_special_chars_with_space
        (((replace_special_chars_with_space t).map pyLowerChar).filter P)
      = replace_special_chars_with_space ((replace_special_chars_with_space t).filter P) := by
        rw [step1]
    _ = replace_special_chars_with_space (replace_special_chars_with_space t) := by rw [step2]
    _ = replace_special_chars_with_space t := replace_special_idem t

/-! ## Claim theorems -/

/-- C10: `__setitem__` stores under the lower-cased key while `__getitem__`
looks up the upper-cased key; for every dataset, key containing a letter
whose upper-cased form is not already a corpus key, and record, setting and
then getting raises `KeyError` (modelled as `none`) although the value sits
in the corpus under the lower-cased key. -/
theorem c10_setget_roundtrip_fails (d : CVEDataset) (k : PStr) (v : CVE)
    (h1 : ∃ c ∈ k, isAsciiLetter c = true)
    (h2 : dictLookup d.cves (pyUpper k) = none) :
    (d.setItem k v).getItem k = none ∧
      dictLookup (d.setItem k v).cves (pyLower k) = some v := by
  refine ⟨?_, ?_⟩
  · show dictLookup (dictInsert (pyLower k) v d.cves) (pyUpper k) = none
    rw [dictLookup_dictInsert_ne _ _ _ _ (pyUpper_ne_pyLower k h1)]
    exact h2
  · show dictLookup (dictInsert (pyLower k) v d.cves) (pyLower k) = some v
    exact dictLookup_dictInsert_self _ _ _

/-- A minimal vulnerability record for concrete scenarios. -/
def cveStub : CVE :=
  { cve_id := pstr "CVE-0", vulnerable_cpes := [], vulnerable_cpe_configurations := [] }

/-- An empty dataset for concrete scenarios. -/
def emptyCveDataset : CVEDataset :=
  { cves := [], cpe_to_cve_ids_lookup := [], cves_with_vulnerable_configurations := [] }

theorem c10_witness :
    ((∃ c ∈ pstr "cve-1", isAsciiLetter c = true) ∧
      dictLookup emptyCveDataset.cves (pyUpper (pstr "cve-1")) = none) ∧
    ((emptyCveDataset.setItem (pstr "cve-1") cveStub).getItem (pstr "cve-1") = none ∧
      dictLookup (emptyCveDataset.setItem (pstr "cve-1") cveStub).cves
        (pyLower (pstr "cve-1")) = some cveStub) :=
  ⟨⟨by decide, by decide⟩,
    c10_setget_roundtrip_fails emptyCveDataset (pstr "cve-1") cveStub (by decide) (by decide)⟩

theorem strict_length_le (cl : CPEClassifier) (o : FuzzOracle) (vendor product_name : PStr)
    (versions : List PStr) (l : List PStr)
    (h : predict_single_cert_strict cl o vendor product_name versions = .ok (some l)) :
    l.length ≤ cl.n_max_matches := by
  unfold predict_single_cert_strict at h
  cases hz : scored_candidates cl o vendor product_name versions with
  | error e => rw [hz] at h; exact Except.noConfusion h
  | ok zs =>
    rw [hz] at h
    simp only [Bind.bind, Except.bind, pure, Except.pure] at h
    by_cases he : zs.filter (fun x => cl.match_threshold ≤ x.1) = []
    · rw [if_pos he] at h
      exact Option.noConfusion (Except.ok.inj h)
    · rw [if_neg he] at h
      have hl := Option.some.inj (Except.ok.inj h)
      rw [← hl, List.length_map, List.length_take]
      exact Nat.min_le_left _ _

/-- C9: for every fitted index, every query, every scoring oracle and every
candidate pool, a list returned by `predict_single_cert` has length at most
`n_max_matches`. -/
theorem c9_cardinality_cap (cl : CPEClassifier) (o : FuzzOracle) (vendor product_name : PStr)
    (versions : List PStr) (relax : Bool) (l : List PStr)
    (h : predict_single_cert cl o vendor product_name versions relax = .ok (some l)) :
    l.length ≤ cl.n_max_matches := by
  unfold predict_single_cert at h
  cases relax with
  | false =>
    rw [if_neg (by simp)] at h
    exact strict_length_le cl o vendor product_name versions l h
  | true =>
    rw [if_pos rfl] at h
    cases hz : scored_candidates cl o vendor product_name versions with
    | error e => rw [hz] at h; exact Except.noConfusion h
    | ok zs =>
      rw [hz] at h
      simp only [Bind.bind, Except.bind, pure, Except.pure] at h
      by_cases he : zs.filter (fun x => 100 ≤ x.1) = []
      · rw [if_pos he] at h
        exact strict_length_le cl o vendor product_name [pstr "-"] l h
      · rw [if_neg he] at h
        have hl := Option.some.inj (Except.ok.inj h)
        rw [← hl, List.length_map, List.length_take]
        exact Nat.min_le_left _ _

theorem c9_witness :
    predict_single_cert clB oracleAB (pstr "v") (pstr "p") [pstr "9.9"] true
      = .ok (some [pstr "cpe:a", pstr "cpe:b"]) ∧
    ([pstr "cpe:a", pstr "cpe:b"] : List PStr).length ≤ clB.n_max_matches :=
  ⟨by decide,
    c9_cardinality_cap clB oracleAB (pstr "v") (pstr "p") [pstr "9.9"] true _ (by decide)⟩

theorem scored_candidates_threshold_irrel (cl : CPEClassifier) (t : Nat) (o : FuzzOracle)
    (vendor product_name : PStr) (versions : List PStr) :
    scored_candidates { cl with match_threshold := t } o vendor product_name versions =
      scored_candidates cl o vendor product_name versions := rfl

/-- C1 counterexample: at a concrete fitted index and query the lone
candidate scores 85, at least the configured threshold 80 but below 100.
The claim's first pass (threshold `match_threshold`) would return its uri
without relaxing, but the code (first-pass threshold 100) rejects it and the
relaxed retry finds no wildcard-version candidate, so the code returns
`None`. -/
theorem c1_counterexample :
    predict_single_cert clA oracle85 (pstr "v") (pstr "prod") [pstr "1.0"] true = .ok none ∧
    predict_single_cert_claimed clA oracle85 (pstr "v") (pstr "prod") [pstr "1.0"] true
      = .ok (some [pstr "cpe:2.3:a:v:prod:1.0"]) ∧
    clA.match_threshold = 80 ∧
    scored_candidates clA oracle85 (pstr "v") (pstr "prod") [pstr "1.0"] = .ok [(85, cpeA)] :=
  ⟨by decide, by decide, by decide, by decide⟩

/-- C1 amended: with `relax_version=True` the first pass filters candidates
by score ≥ 100 (not ≥ `match_threshold`); exactly when it yields zero
matches, the algorithm is re-invoked once with versions forced to `["-"]`
and `relax_version=False`, and that second pass filters by score ≥
`match_threshold` (default 80) — the two thresholds are swapped relative to
the claim. -/
theorem c1_threshold_swapped_amended (cl : CPEClassifier) (o : FuzzOracle)
    (vendor product_name : PStr) (versions : List PStr) (r : Option (List PStr))
    (h : predict_single_cert cl o vendor product_name versions true = .ok r) :
    ∃ zs, scored_candidates cl o vendor product_name versions = .ok zs ∧
      ((zs.filter (fun x => 100 ≤ x.1) ≠ [] ∧
          r = some (((zs.filter (fun x => 100 ≤ x.1)).take cl.n_max_matches).map
            (fun x => x.2.uri))) ∨
        (zs.filter (fun x => 100 ≤ x.1) = [] ∧
          ∃ zs2, scored_candidates cl o vendor product_name [pstr "-"] = .ok zs2 ∧
            r = (if zs2.filter (fun x => cl.match_threshold ≤ x.1) = [] then none
                 else some (((zs2.filter (fun x => cl.match_threshold ≤ x.1)).take
                   cl.n_max_matches).map (fun x => x.2.uri))))) := by
  unfold predict_single_cert at h
  rw [if_pos rfl] at h
  cases hz : scored_candidates cl o vendor product_name versions with
  | error e => rw [hz] at h; exact Except.noConfusion h
  | ok zs =>
    rw [hz] at h
    simp only [Bind.bind, Except.bind] at h
    refine ⟨zs, rfl, ?_⟩
    by_cases he : zs.filter (fun x => 100 ≤ x.1) = []
    · rw [if_pos he] at h
      refine Or.inr ⟨he, ?_⟩
      unfold predict_single_cert_strict at h
      cases hz2 : scored_candidates cl o vendor product_name [pstr "-"] with
      | error e => rw [hz2] at h; exact Except.noConfusion h
      | ok zs2 =>
        rw [hz2] at h
        simp only [Bind.bind, Except.bind, pure, Except.pure] at h
        exact ⟨zs2, rfl, (Except.ok.inj h).symm⟩
    · rw [if_neg he] at h
      exact Or.inl ⟨he, (Except.ok.inj h).symm⟩

theorem c1_amended_witness :
    predict_single_cert clA oracle85 (pstr "v") (pstr "prod") [pstr "1.0"] true = .ok none ∧
    (∃ zs, scored_candidates clA oracle85 (pstr "v") (pstr "prod") [pstr "1.0"] = .ok zs ∧
      ((zs.filter (fun x => 100 ≤ x.1) ≠ [] ∧
          (none : Option (List PStr)) = some (((zs.filter (fun x => 100 ≤ x.1)).take
            clA.n_max_matches).map (fun x => x.2.uri))) ∨
        (zs.filter (fun x => 100 ≤ x.1) = [] ∧
          ∃ zs2, scored_candidates clA oracle85 (pstr "v") (pstr "prod") [pstr "-"] = .ok zs2 ∧
            (none : Option (List PStr)) =
              (if zs2.filter (fun x => clA.match_threshold ≤ x.1) = [] then none
               else some (((zs2.filter (fun x => clA.match_threshold ≤ x.1)).take
                 clA.n_max_matches).map (fun x => x.2.uri)))))) :=
  ⟨by decide,
    c1_threshold_swapped_amended clA oracle85 (pstr "v") (pstr "prod") [pstr "1.0"] none
      (by decide)⟩

/-- C2 counterexample: at a concrete query the relaxed pass keeps two
candidates scoring 85 then 95 (candidate enumeration order); the code
returns their uris in enumeration order (ascending scores 85, 95), while
the claimed descending-score sort would return them reversed. -/
theorem c2_counterexample :
    predict_single_cert clB oracleAB (pstr "v") (pstr "p") [pstr "9.9"] true
      = .ok (some [pstr "cpe:a", pstr "cpe:b"]) ∧
    predict_single_cert_sorted_claimed clB oracleAB (pstr "v") (pstr "p") [pstr "9.9"] true
      = .ok (some [pstr "cpe:b", pstr "cpe:a"]) ∧
    scored_candidates clB oracleAB (pstr "v") (pstr "p") [pstr "-"]
      = .ok [(85, cpeB1), (95, cpeB2)] :=
  ⟨by decide, by decide, by decide⟩

/-- C2 amended: a returned list consists of the uris of the first (at most)
`n_max_matches` threshold-passing candidates in the original candidate
enumeration order — no sorting by score takes place, so the list is a
sublist of the candidate uris in enumeration order; `None` is returned when
the filtered set is empty after both passes. -/
theorem c2_enumeration_order_amended (cl : CPEClassifier) (o : FuzzOracle)
    (vendor product_name : PStr) (versions : List PStr) (l : List PStr)
    (h : predict_single_cert cl o vendor product_name versions true = .ok (some l)) :
    l.length ≤ cl.n_max_matches ∧
      ∃ th zs,
        ((th = 100 ∧ scored_candidates cl o vendor product_name versions = .ok zs) ∨
          (th = cl.match_threshold ∧
            scored_candidates cl o vendor product_name [pstr "-"] = .ok zs)) ∧
        zs.filter (fun x => th ≤ x.1) ≠ [] ∧
        l = ((zs.filter (fun x => th ≤ x.1)).take cl.n_max_matches).map (fun x => x.2.uri) ∧
        l.Sublist (zs.map (fun x => x.2.uri)) := by
  unfold predict_single_cert at h
  rw [if_pos rfl] at h
  cases hz : scored_candidates cl o vendor product_name versions with
  | error e => rw [hz] at h; exact Except.noConfusion h
  | ok zs =>
    rw [hz] at h
    simp only [Bind.bind, Except.bind] at h
    by_cases he : zs.filter (fun x => 100 ≤ x.1) = []
    · rw [if_pos he] at h
      unfold predict_single_cert_strict at h
      cases hz2 : scored_candidates cl o vendor product_name [pstr "-"] with
      | error e => rw [hz2] at h; exact Except.noConfusion h
      | ok zs2 =>
        rw [hz2] at h
        simp only [Bind.bind, Except.bind, pure, Except.pure] at h
        by_cases he2 : zs2.filter (fun x => cl.match_threshold ≤ x.1) = []
        · rw [if_pos he2] at h
          exact Option.noConfusion (Except.ok.inj h)
        · rw [if_neg he2] at h
          have hl := (Option.some.inj (Except.ok.inj h)).symm
          refine ⟨?_, cl.match_threshold, zs2, Or.inr ⟨rfl, rfl⟩, he2, hl, ?_⟩
          · rw [hl, List.length_map, List.length_take]
            exact Nat.min_le_left _ _
          · rw [hl]
            exact ((List.take_sublist _ _).trans (List.filter_sublist _)).map _
    · rw [if_neg he] at h
      have hl := (Option.some.inj (Except.ok.inj h)).symm
      refine ⟨?_, 100, zs, Or.inl ⟨rfl, rfl⟩, he, hl, ?_⟩
      · rw [hl, List.length_map, List.length_take]
        exact Nat.min_le_left _ _
      · rw [hl]
        exact ((List.take_sublist _ _).trans (List.filter_sublist _)).map _

theorem c2_amended_witness :
    predict_single_cert clB oracleAB (pstr "v") (pstr "p") [pstr "9.9"] true
      = .ok (some [pstr "cpe:a", pstr "cpe:b"]) ∧
    (([pstr "cpe:a", pstr "cpe:b"] : List PStr).length ≤ clB.n_max_matches ∧
      ∃ th zs,
        ((th = 100 ∧ scored_candidates clB oracleAB (pstr "v") (pstr "p") [pstr "9.9"] = .ok zs) ∨
          (th = clB.match_threshold ∧
            scored_candidates clB oracleAB (pstr "v") (pstr "p") [pstr "-"] = .ok zs)) ∧
        zs.filter (fun x => th ≤ x.1) ≠ [] ∧
        [pstr "cpe:a", pstr "cpe:b"]
          = ((zs.filter (fun x => th ≤ x.1)).take clB.n_max_matches).map (fun x => x.2.uri) ∧
        ([pstr "cpe:a", pstr "cpe:b"] : List PStr).Sublist (zs.map (fun x => x.2.uri))) :=
  ⟨by decide,
    c2_enumeration_order_amended clB oracleAB (pstr "v") (pstr "p") [pstr "9.9"] _ (by decide)⟩

/-- The two-record index with `n_max_matches = 1`, at two thresholds
differing only in `match_threshold` (80 vs 90). -/
def clB80n1 : CPEClassifier := fitClassifier 80 1 [cpeB1, cpeB2]

def clB90n1 : CPEClassifier := fitClassifier 90 1 [cpeB1, cpeB2]

/-- C3 counterexample: same query, same index (`n_max_matches = 1`),
thresholds 80 ≤ 90.  The relaxed-pass candidates score 85 then 95; at
threshold 80 the cap keeps only the first-enumerated uri `cpe:a`, at
threshold 90 only `cpe:b` survives the filter — so the higher-threshold
match set `{cpe:b}` is not a subset of the lower-threshold one `{cpe:a}`. -/
theorem c3_counterexample :
    clB90n1 = { clB80n1 with match_threshold := 90 } ∧
    clB80n1.match_threshold ≤ clB90n1.match_threshold ∧
    predict_single_cert clB80n1 oracleAB (pstr "v") (pstr "p") [pstr "9.9"] true
      = .ok (some [pstr "cpe:a"]) ∧
    predict_single_cert clB90n1 oracleAB (pstr "v") (pstr "p") [pstr "9.9"] true
      = .ok (some [pstr "cpe:b"]) ∧
    ¬(pstr "cpe:b" ∈ [pstr "cpe:a"]) :=
  ⟨by decide, by decide, by decide, by decide, by decide⟩

/-- C3 amended: raising `match_threshold` never grows the returned match set
provided the lower-threshold relaxed-pass match list is not truncated by the
`n_max_matches` cap (the first pass uses the fixed threshold 100 and is
unaffected by `match_threshold`; with truncation the cap can select
different elements, as the counterexample shows). -/
theorem c3_threshold_monotone_amended (cl : CPEClassifier) (o : FuzzOracle)
    (vendor product_name : PStr) (versions : List PStr) (t1 t2 : Nat)
    (r1 r2 : Option (List PStr))
    (h12 : t1 ≤ t2)
    (hnotrunc : relaxedFilteredCount cl o vendor product_name t1 ≤ cl.n_max_matches)
    (h1 : predict_single_cert { cl with match_threshold := t1 } o vendor product_name
      versions true = .ok r1)
    (h2 : predict_single_cert { cl with match_threshold := t2 } o vendor product_name
      versions true = .ok r2) :
    ∀ u ∈ r2.getD [], u ∈ r1.getD [] := by
  intro u hu
  unfold predict_single_cert at h1 h2
  rw [if_pos rfl] at h1 h2
  rw [scored_candidates_threshold_irrel] at h1 h2
  cases hz : scored_candidates cl o vendor product_name versions with
  | error e => rw [hz] at h1; exact Except.noConfusion h1
  | ok zs =>
    rw [hz] at h1 h2
    simp only [Bind.bind, Except.bind] at h1 h2
    by_cases he : zs.filter (fun x => 100 ≤ x.1) = []
    · rw [if_pos he] at h1 h2
      unfold predict_single_cert_strict at h1 h2
      rw [scored_candidates_threshold_irrel] at h1 h2
      cases hz2 : scored_candidates cl o vendor product_name [pstr "-"] with
      | error e => rw [hz2] at h1; exact Except.noConfusion h1
      | ok zs2 =>
        rw [hz2] at h1 h2
        simp only [Bind.bind, Except.bind, pure, Except.pure] at h1 h2
        have hr1 := (Except.ok.inj h1).symm
        have hr2 := (Except.ok.inj h2).symm
        have hcount : relaxedFilteredCount cl o vendor product_name t1 =
            (zs2.filter (fun x => t1 ≤ x.1)).length := by
          unfold relaxedFilteredCount
          rw [hz2]
        rw [hcount] at hnotrunc
        have hsub : ∀ x ∈ zs2.filter (fun x => t2 ≤ x.1), x ∈ zs2.filter (fun x => t1 ≤ x.1) := by
          intro x hx
          have hm := List.mem_filter.mp hx
          refine List.mem_filter.mpr ⟨hm.1, ?_⟩
          have ht2 := of_decide_eq_true hm.2
          exact decide_eq_true (Nat.le_trans h12 ht2)
        by_cases h2e : zs2.filter (fun x => t2 ≤ x.1) = []
        · rw [if_pos h2e] at hr2
          rw [hr2] at hu
          simp at hu
        · rw [if_neg h2e] at hr2
          have h1e : zs2.filter (fun x => t1 ≤ x.1) ≠ [] := by
            intro h0
            rcases List.exists_mem_of_ne_nil _ h2e with ⟨x, hx⟩
            exact (List.not_mem_nil x) (h0 ▸ hsub x hx)
          rw [if_neg h1e] at hr1
          rw [hr2] at hu
          rw [hr1]
          simp only [Option.getD_some] at hu ⊢
          have htake : (zs2.filter (fun x => t1 ≤ x.1)).take cl.n_max_matches =
              zs2.filter (fun x => t1 ≤ x.1) := List.take_of_length_le hnotrunc
          rw [htake]
          rcases List.mem_map.mp hu with ⟨x, hx, rfl⟩
          exact List.mem_map.mpr ⟨x, hsub x (List.take_subset _ _ hx), rfl⟩
    · rw [if_neg he] at h1 h2
      have e1 := Except.ok.inj h1
      have e2 := Except.ok.inj h2
      rw [← e1]
      rw [← e2] at hu
      exact hu

/-- Index for the C3 witness: `n_max_matches = 2`, so the lower-threshold
pass (2 matches) is not truncated. -/
def clB3base : CPEClassifier := fitClassifier 0 2 [cpeB1, cpeB2]

theorem c3_amended_witness :
    (80 ≤ 90 ∧
      relaxedFilteredCount clB3base oracleAB (pstr "v") (pstr "p") 80 ≤ clB3base.n_max_matches ∧
      predict_single_cert { clB3base with match_threshold := 80 } oracleAB (pstr "v") (pstr "p")
        [pstr "9.9"] true = .ok (some [pstr "cpe:a", pstr "cpe:b"]) ∧
      predict_single_cert { clB3base with match_threshold := 90 } oracleAB (pstr "v") (pstr "p")
        [pstr "9.9"] true = .ok (some [pstr "cpe:b"])) ∧
    (∀ u ∈ (some [pstr "cpe:b"] : Option (List PStr)).getD [],
      u ∈ (some [pstr "cpe:a", pstr "cpe:b"] : Option (List PStr)).getD []) :=
  ⟨⟨by decide, by decide, by decide, by decide⟩,
    c3_threshold_monotone_amended clB3base oracleAB (pstr "v") (pstr "p") [pstr "9.9"] 80 90
      (some [pstr "cpe:a", pstr "cpe:b"]) (some [pstr "cpe:b"])
      (by decide) (by decide) (by decide) (by decide)⟩

/-- C8: `get_candidate_list_of_vendors` raises `IndexError` on a non-empty
whitespace-only vendor string: the falsy-input guard returns `None` only for
the empty string, and a whitespace-only input reaches `tokenized[0]` with
`tokenized` empty.  The second conjunct shows the intended null-return on
the empty input for contrast. -/
theorem c8_whitespace_vendor_indexerror :
    get_candidate_list_of_vendors clA (pstr " ") = .error "IndexError" ∧
    get_candidate_list_of_vendors clA [] = .ok none :=
  ⟨by decide, by decide⟩

theorem mem_setAdd {α} [DecidableEq α] {x y : α} {l : List α} (h : x ∈ setAdd y l) :
    x ∈ l ∨ x = y := by
  unfold setAdd at h
  by_cases hy : y ∈ l
  · rw [if_pos hy] at h
    exact Or.inl h
  · rw [if_neg hy] at h
    rcases List.mem_append.mp h with h | h
    · exact Or.inl h
    · exact Or.inr (List.mem_singleton.mp h)

theorem mem_cpeSetAdd {c x : CPE} {l : List CPE} (h : c ∈ cpeSetAdd x l) : c ∈ l ∨ c = x := by
  unfold cpeSetAdd at h
  by_cases hy : cpeInSet x l
  · rw [if_pos hy] at h
    exact Or.inl h
  · rw [if_neg hy] at h
    rcases List.mem_append.mp h with h | h
    · exact Or.inl h
    · exact Or.inr (List.mem_singleton.mp h)

theorem mem_dictInsert {κ ν} [DecidableEq κ] {p : κ × ν} {k : κ} {v : ν} {d : List (κ × ν)}
    (h : p ∈ dictInsert k v d) : (p.1 = k ∧ p.2 = v) ∨ p ∈ d := by
  induction d with
  | nil =>
    rw [dictInsert] at h
    rcases List.mem_singleton.mp h with rfl
    exact Or.inl ⟨rfl, rfl⟩
  | cons q t ih =>
    obtain ⟨k1, v1⟩ := q
    simp only [dictInsert] at h
    by_cases hk : k1 = k
    · rw [if_pos hk] at h
      rcases List.mem_cons.mp h with rfl | h
      · exact Or.inl ⟨hk, rfl⟩
      · exact Or.inr (List.mem_cons_of_mem _ h)
    · rw [if_neg hk] at h
      rcases List.mem_cons.mp h with rfl | h
      · exact Or.inr (List.mem_cons_self _ _)
      · rcases ih h with h | h
        · exact Or.inl h
        · exact Or.inr (List.mem_cons_of_mem _ h)

theorem dictLookup_mem {κ ν} [DecidableEq κ] {d : List (κ × ν)} {k : κ} {v : ν}
    (h : dictLookup d k = some v) : (k, v) ∈ d := by
  induction d with
  | nil => exact Option.noConfusion h
  | cons q t ih =>
    obtain ⟨k1, v1⟩ := q
    simp only [dictLookup] at h
    by_cases hk : k1 = k
    · subst hk
      rw [if_pos rfl] at h
      rcases Option.some.inj h with rfl
      exact List.mem_cons_self _ _
    · rw [if_neg hk] at h
      exact List.mem_cons_of_mem _ (ih h)

theorem buildStep_inv (long : List CPE)
    (st : List (PStr × List PStr) × List ((PStr × PStr) × List CPE)) (cpe : CPE)
    (hcpe : cpe ∈ long)
    (h1 : ∀ p ∈ st.1, ∀ vers ∈ p.2, ∃ c ∈ long, c.vendor = p.1 ∧ c.version = vers)
    (h2 : ∀ q ∈ st.2, ∀ c ∈ q.2, c ∈ long ∧ c.vendor = q.1.1 ∧ c.version = q.1.2) :
    (∀ p ∈ (buildStep st cpe).1, ∀ vers ∈ p.2,
      ∃ c ∈ long, c.vendor = p.1 ∧ c.version = vers) ∧
    (∀ q ∈ (buildStep st cpe).2, ∀ c ∈ q.2,
      c ∈ long ∧ c.vendor = q.1.1 ∧ c.version = q.1.2) := by
  constructor
  · intro p hp vers hv
    simp only [buildStep] at hp
    rcases List.mem_map.mp hp with ⟨p0, hp0, rfl⟩
    by_cases hveq : p0.1 = cpe.vendor
    · rw [if_pos hveq] at hv ⊢
      rcases mem_setAdd hv with h | rfl
      · rcases h1 p0 hp0 vers h with ⟨c, hc, hcv, hcver⟩
        exact ⟨c, hc, hcv, hcver⟩
      · exact ⟨cpe, hcpe, hveq.symm, rfl⟩
    · rw [if_neg hveq] at hv ⊢
      exact h1 p0 hp0 vers hv
  · intro q hq c hc
    simp only [buildStep] at hq
    cases hlk : dictLookup st.2 (cpe.vendor, cpe.version) with
    | none =>
      rw [hlk] at hq
      rcases List.mem_append.mp hq with h | h
      · exact h2 q h c hc
      · rcases List.mem_singleton.mp h with rfl
        rcases List.mem_singleton.mp hc with rfl
        exact ⟨hcpe, rfl, rfl⟩
    | some s =>
      rw [hlk] at hq
      rcases mem_dictInsert hq with ⟨hk, hv⟩ | h
      · rw [hv] at hc
        rcases mem_cpeSetAdd hc with h | rfl
        · have hmem := h2 ((cpe.vendor, cpe.version), s) (dictLookup_mem hlk) c h
          exact ⟨hmem.1, by rw [hk]; exact hmem.2.1, by rw [hk]; exact hmem.2.2⟩
        · exact ⟨hcpe, by rw [hk], by rw [hk]⟩
      · exact h2 q h c hc

theorem buildFold_inv (long : List CPE) :
    ∀ (l : List CPE) (st : List (PStr × List PStr) × List ((PStr × PStr) × List CPE)),
      (∀ c ∈ l, c ∈ long) →
      (∀ p ∈ st.1, ∀ vers ∈ p.2, ∃ c ∈ long, c.vendor = p.1 ∧ c.version = vers) →
      (∀ q ∈ st.2, ∀ c ∈ q.2, c ∈ long ∧ c.vendor = q.1.1 ∧ c.version = q.1.2) →
      (∀ p ∈ (l.foldl buildStep st).1, ∀ vers ∈ p.2,
        ∃ c ∈ long, c.vendor = p.1 ∧ c.version = vers) ∧
      (∀ q ∈ (l.foldl buildStep st).2, ∀ c ∈ q.2,
        c ∈ long ∧ c.vendor = q.1.1 ∧ c.version = q.1.2)
  | [], _, _, h1, h2 => ⟨h1, h2⟩
  | x :: t, st, hl, h1, h2 => by
    have hstep := buildStep_inv long st x (hl x (List.mem_cons_self _ _)) h1 h2
    exact buildFold_inv long t (buildStep st x)
      (fun c hc => hl c (List.mem_cons_of_mem _ hc)) hstep.1 hstep.2

theorem seedValuesEmpty :
    ∀ (l : List CPE) (d : List (PStr × List PStr)),
      (∀ p ∈ d, p.2 = ([] : List PStr)) →
      ∀ p ∈ l.foldl (fun d x => dictInsert x.vendor [] d) d, p.2 = ([] : List PStr)
  | [], _, hd => hd
  | x :: t, d, hd => by
    refine seedValuesEmpty t _ (fun p hp => ?_)
    rcases mem_dictInsert hp with ⟨_, hv⟩ | hp
    · exact hv
    · exact hd p hp

/-- C6: no identifier record whose `item_name` has length at most 3
contributes anything to the structures built by `fit`: every version stored
in `vendor_to_versions_` and every record stored in `vendor_version_to_cpe_`
comes from an input record with `len(item_name) > 3`, with matching vendor
and version keys. -/
theorem c6_short_names_excluded (t n : Nat) (X : List CPE) :
    (∀ p ∈ (fitClassifier t n X).vendor_to_versions_, ∀ vers ∈ p.2,
      ∃ c ∈ X, 3 < c.item_name.length ∧ c.vendor = p.1 ∧ c.version = vers) ∧
    (∀ q ∈ (fitClassifier t n X).vendor_version_to_cpe_, ∀ c ∈ q.2,
      c ∈ X ∧ 3 < c.item_name.length ∧ c.vendor = q.1.1 ∧ c.version = q.1.2) := by
  have hseed := seedValuesEmpty (filter_short_cpes X) [] (fun p hp => absurd hp (List.not_mem_nil p))
  have hmain := buildFold_inv (filter_short_cpes X) (filter_short_cpes X)
    ((filter_short_cpes X).foldl (fun d x => dictInsert x.vendor [] d) [], [])
    (fun _ hc => hc)
    (fun p hp vers hv => absurd hv (by rw [hseed p hp]; exact List.not_mem_nil vers))
    (fun q hq => absurd hq (List.not_mem_nil q))
  have hlong : ∀ c ∈ filter_short_cpes X, c ∈ X ∧ 3 < c.item_name.length := by
    intro c hc
    have hm := List.mem_filter.mp hc
    exact ⟨hm.1, of_decide_eq_true hm.2⟩
  constructor
  · intro p hp vers hv
    rcases hmain.1 p hp vers hv with ⟨c, hc, hcv, hcver⟩
    exact ⟨c, (hlong c hc).1, (hlong c hc).2, hcv, hcver⟩
  · intro q hq c hc
    rcases hmain.2 q hq c hc with ⟨hcl, hcv, hcver⟩
    exact ⟨(hlong c hcl).1, (hlong c hcl).2, hcv, hcver⟩

theorem c6_witness :
    ((pstr "v", [pstr "1.0"]) ∈ (fitClassifier 80 10 [cpeA]).vendor_to_versions_ ∧
      pstr "1.0" ∈ [pstr "1.0"]) ∧
    (∃ c ∈ [cpeA], 3 < c.item_name.length ∧ c.vendor = pstr "v" ∧ c.version = pstr "1.0") :=
  ⟨⟨by decide, by decide⟩,
    (c6_short_names_excluded 80 10 [cpeA]).1 (pstr "v", [pstr "1.0"]) (by decide)
      (pstr "1.0") (by decide)⟩

theorem uriInCpeSet_eq_false (u : PStr) (s : List CPE) : uriInCpeSet u s = false := by
  induction s with
  | nil => rfl
  | cons a t ih =>
    simp only [uriInCpeSet, List.any_cons, uriEqCpe, Bool.false_or]
    exact ih

theorem delStep_sublist (pairs : List (PStr × CVE)) (cid : PStr) (res : List (PStr × CVE))
    (h : delStep pairs cid = .ok res) : res.Sublist pairs := by
  unfold delStep at h
  by_cases hc : (pairs.map (fun p => p.1)).contains cid
  · rw [if_pos hc] at h
    rcases Except.ok.inj h with rfl
    exact List.filter_sublist _
  · rw [if_neg hc] at h
    exact Except.noConfusion h

theorem deleteFold_sublist :
    ∀ (ids : List PStr) (pairs res : List (PStr × CVE)),
      ids.foldlM delStep pairs = .ok res → res.Sublist pairs
  | [], pairs, res, h => by
    simp only [List.foldlM_nil] at h
    rcases Except.ok.inj h with rfl
    exact List.Sublist.refl _
  | cid :: t, pairs, res, h => by
    rw [List.foldlM_cons] at h
    cases hs : delStep pairs cid with
    | error e =>
      rw [hs] at h
      simp only [Bind.bind, Except.bind] at h
      exact Except.noConfusion h
    | ok mid =>
      rw [hs] at h
      simp only [Bind.bind, Except.bind] at h
      exact (deleteFold_sublist t mid res h).trans (delStep_sublist pairs cid mid hs)

/-- C4: after a successful `filter_related_cpes(S)`, every remaining record
is the pruned version of a record present before (under the same key: no new
record appears), its direct identifier list references only identifiers of
`S`, and each of its remaining compound configurations references only
identifiers of `S` (platform and all components). -/
theorem c4_prune_subset_invariant (d : CVEDataset) (S : List CPE) (d2 : CVEDataset)
    (h : filter_related_cpes d S = .ok d2) :
    (∀ p ∈ d2.cves, ∃ v0, (p.1, v0) ∈ d.cves ∧ p.2 = pruneCve S v0) ∧
    (∀ p ∈ d2.cves, ∀ c ∈ p.2.vulnerable_cpes, cpeInSet c S = true) ∧
    (∀ p ∈ d2.cves, ∀ cfg ∈ p.2.vulnerable_cpe_configurations,
      (∃ s ∈ S, s.uri = cfg.platform.uri) ∧ ∀ y ∈ cfg.cpes, ∃ s ∈ S, s.uri = y.uri) := by
  unfold filter_related_cpes at h
  dsimp only at h
  cases hf : (((d.cves.map (fun p => (p.1, pruneCve S p.2))).map (fun p => p.2)).filter
      (fun c => c.vulnerable_cpes = [])).map (fun c => c.cve_id)
      |>.foldlM delStep (d.cves.map (fun p => (p.1, pruneCve S p.2))) with
  | error e =>
    rw [hf] at h
    simp only [Bind.bind, Except.bind] at h
    exact Except.noConfusion h
  | ok fp =>
    rw [hf] at h
    simp only [Bind.bind, Except.bind] at h
    rcases Except.ok.inj h with rfl
    have hmem : ∀ p ∈ fp, ∃ v0, (p.1, v0) ∈ d.cves ∧ p.2 = pruneCve S v0 := by
      intro p hp
      have hp2 := (deleteFold_sublist _ _ _ hf).subset hp
      rcases List.mem_map.mp hp2 with ⟨p0, hp0, rfl⟩
      exact ⟨p0.2, by simpa using hp0, rfl⟩
    refine ⟨hmem, ?_, ?_⟩
    · intro p hp c hc
      rcases hmem p hp with ⟨v0, _, hpr⟩
      rw [hpr] at hc
      exact (List.mem_filter.mp hc).2
    · intro p hp cfg hcfg
      rcases hmem p hp with ⟨v0, _, hpr⟩
      rw [hpr] at hcfg
      have hcond := (List.mem_filter.mp hcfg).2
      rw [Bool.and_eq_true] at hcond
      rw [uriInCpeSet_eq_false] at hcond
      exact absurd hcond.1 (by simp)

/-- Concrete record and dataset for the C4 and C5 witnesses. -/
def cveW : CVE :=
  { cve_id := pstr "CVE-1", vulnerable_cpes := [cpeA], vulnerable_cpe_configurations := [] }

def dW : CVEDataset :=
  { cves := [(pstr "CVE-1", cveW)], cpe_to_cve_ids_lookup := [],
    cves_with_vulnerable_configurations := [] }

theorem c4_witness :
    filter_related_cpes dW [cpeA] = .ok dW ∧
    ((∀ p ∈ dW.cves, ∃ v0, (p.1, v0) ∈ dW.cves ∧ p.2 = pruneCve [cpeA] v0) ∧
      (∀ p ∈ dW.cves, ∀ c ∈ p.2.vulnerable_cpes, cpeInSet c [cpeA] = true) ∧
      (∀ p ∈ dW.cves, ∀ cfg ∈ p.2.vulnerable_cpe_configurations,
        (∃ s ∈ [cpeA], s.uri = cfg.platform.uri) ∧
          ∀ y ∈ cfg.cpes, ∃ s ∈ [cpeA], s.uri = y.uri)) :=
  ⟨by decide, c4_prune_subset_invariant dW [cpeA] dW (by decide)⟩

theorem mem_setAdd_iff {α} [DecidableEq α] (x y : α) (l : List α) :
    x ∈ setAdd y l ↔ x ∈ l ∨ x = y := by
  unfold setAdd
  by_cases hy : y ∈ l
  · rw [if_pos hy]
    constructor
    · exact Or.inl
    · rintro (h | rfl)
      · exact h
      · exact hy
  · rw [if_neg hy]
    rw [List.mem_append, List.mem_singleton]

theorem mem_foldl_setAdd {α} [DecidableEq α] (x : α) :
    ∀ (l acc : List α), x ∈ l.foldl (fun acc y => setAdd y acc) acc ↔ x ∈ acc ∨ x ∈ l
  | [], acc => by simp
  | y :: t, acc => by
    rw [List.foldl_cons, mem_foldl_setAdd x t (setAdd y acc), mem_setAdd_iff, List.mem_cons]
    tauto

theorem mem_dedupFirst {α} [DecidableEq α] (x : α) (l : List α) : x ∈ dedupFirst l ↔ x ∈ l := by
  unfold dedupFirst
  rw [mem_foldl_setAdd]
  simp

theorem dictLookup_append {κ ν} [DecidableEq κ] (d1 d2 : List (κ × ν)) (k : κ) :
    dictLookup (d1 ++ d2) k =
      match dictLookup d1 k with
      | some v => some v
      | none => dictLookup d2 k := by
  induction d1 with
  | nil => simp [dictLookup]
  | cons q t ih =>
    obtain ⟨k1, v1⟩ := q
    by_cases hk : k1 = k
    · simp [dictLookup, hk]
    · simp only [List.cons_append, dictLookup, if_neg hk]
      exact ih

theorem mem_lookupAdd (lk : List (PStr × List PStr)) (uri cve_id u id : PStr) :
    id ∈ (dictLookup (lookupAdd lk uri cve_id) u).getD [] ↔
      id ∈ (dictLookup lk u).getD [] ∨ (u = uri ∧ id = cve_id) := by
  unfold lookupAdd
  cases hlk : dictLookup lk uri with
  | none =>
    rw [dictLookup_append]
    by_cases hu : u = uri
    · subst hu
      rw [hlk]
      simp [dictLookup]
    · cases h1 : dictLookup lk u with
      | some v => simp [hu]
      | none =>
        simp only [dictLookup]
        rw [if_neg (fun he => hu he.symm)]
        simp [hu]
  | some s =>
    by_cases hu : u = uri
    · subst hu
      rw [dictLookup_dictInsert_self, hlk]
      simp only [Option.getD_some]
      rw [mem_setAdd_iff]
      simp
    · rw [dictLookup_dictInsert_ne _ _ _ _ hu]
      simp [hu]

theorem lookupAddFold_mem (cve_id : PStr) :
    ∀ (cpes : List CPE) (lk : List (PStr × List PStr)) (u id : PStr),
      id ∈ (dictLookup (cpes.foldl (fun lk2 cpe => lookupAdd lk2 cpe.uri cve_id) lk) u).getD []
        ↔ id ∈ (dictLookup lk u).getD [] ∨ (id = cve_id ∧ ∃ c ∈ cpes, c.uri = u)
  | [], lk, u, id => by simp
  | cpe :: t, lk, u, id => by
    rw [List.foldl_cons, lookupAddFold_mem cve_id t _ u id, mem_lookupAdd]
    constructor
    · rintro ((h | ⟨huri, hid⟩) | ⟨hid, c, hc, hcu⟩)
      · exact Or.inl h
      · exact Or.inr ⟨hid, cpe, List.mem_cons_self _ _, huri.symm⟩
      · exact Or.inr ⟨hid, c, List.mem_cons_of_mem _ hc, hcu⟩
    · rintro (h | ⟨hid, c, hc, hcu⟩)
      · exact Or.inl (Or.inl h)
      · rcases List.mem_cons.mp hc with rfl | hct
        · exact Or.inl (Or.inr ⟨hcu.symm, hid⟩)
        · exact Or.inr ⟨hid, c, hct, hcu⟩

theorem buildLookupFold_mem (md : CPE → Option (List CPE)) :
    ∀ (values : List CVE) (lk : List (PStr × List PStr)) (u id : PStr),
      id ∈ (dictLookup (values.foldl (fun lk cve =>
          (vulnConfigurations false md cve).foldl
            (fun lk2 cpe => lookupAdd lk2 cpe.uri cve.cve_id) lk) lk) u).getD [] ↔
        id ∈ (dictLookup lk u).getD [] ∨
          ∃ cve ∈ values, cve.cve_id = id ∧ ∃ c ∈ cve.vulnerable_cpes, c.uri = u
  | [], lk, u, id => by simp
  | cve :: t, lk, u, id => by
    rw [List.foldl_cons, buildLookupFold_mem md t _ u id]
    have hvc : vulnConfigurations false md cve = cve.vulnerable_cpes := rfl
    rw [hvc, lookupAddFold_mem cve.cve_id cve.vulnerable_cpes lk u id]
    constructor
    · rintro ((h | ⟨hid, c, hc, hcu⟩) | ⟨cv, hcv, hcid, hex⟩)
      · exact Or.inl h
      · exact Or.inr ⟨cve, List.mem_cons_self _ _, hid.symm, c, hc, hcu⟩
      · exact Or.inr ⟨cv, List.mem_cons_of_mem _ hcv, hcid, hex⟩
    · rintro (h | ⟨cv, hcv, hcid, c, hc, hcu⟩)
      · exact Or.inl (Or.inl h)
      · rcases List.mem_cons.mp hcv with rfl | hct
        · exact Or.inl (Or.inr ⟨hcid.symm, c, hc, hcu⟩)
        · exact Or.inr ⟨cv, hct, hcid, c, hc, hcu⟩

theorem rekey_key_inv (pairs : List (PStr × CVE)) :
    ∀ p ∈ rekeyCves pairs, p.1 = pyUpper p.2.cve_id := by
  unfold rekeyCves
  have haux : ∀ (l : List CVE) (acc : List (PStr × CVE)),
      (∀ p ∈ acc, p.1 = pyUpper p.2.cve_id) →
      ∀ p ∈ l.foldl (fun acc x => dictInsert (pyUpper x.cve_id) x acc) acc,
        p.1 = pyUpper p.2.cve_id := by
    intro l
    induction l with
    | nil => intro acc hacc; exact hacc
    | cons x t ih =>
      intro acc hacc
      rw [List.foldl_cons]
      refine ih _ (fun p hp => ?_)
      rcases mem_dictInsert hp with ⟨hk, hv⟩ | hp
      · rw [hk, hv]
      · exact hacc p hp
  exact haux _ [] (fun p hp => absurd hp (List.not_mem_nil p))

theorem keys_mem_dictInsert {κ ν} [DecidableEq κ] {x k : κ} {v : ν} {d : List (κ × ν)}
    (h : x ∈ (dictInsert k v d).map Prod.fst) : x ∈ d.map Prod.fst ∨ x = k := by
  rcases List.mem_map.mp h with ⟨p, hp, rfl⟩
  rcases mem_dictInsert hp with ⟨hk, _⟩ | hp
  · exact Or.inr hk
  · exact Or.inl (List.mem_map.mpr ⟨p, hp, rfl⟩)

theorem dictInsert_keys_nodup {κ ν} [DecidableEq κ] (k : κ) (v : ν) (d : List (κ × ν))
    (h : (d.map Prod.fst).Nodup) : ((dictInsert k v d).map Prod.fst).Nodup := by
  induction d with
  | nil => simp [dictInsert]
  | cons q t ih =>
    obtain ⟨k1, v1⟩ := q
    simp only [dictInsert]
    by_cases hk : k1 = k
    · rw [if_pos hk]
      simpa using h
    · rw [if_neg hk]
      simp only [List.map_cons, List.nodup_cons] at h ⊢
      refine ⟨fun hx => ?_, ih h.2⟩
      rcases keys_mem_dictInsert hx with hx2 | he
      · exact h.1 hx2
      · exact hk he
  
theorem rekey_keys_nodup (pairs : List (PStr × CVE)) :
    ((rekeyCves pairs).map Prod.fst).Nodup := by
  unfold rekeyCves
  have haux : ∀ (l : List CVE) (acc : List (PStr × CVE)), (acc.map Prod.fst).Nodup →
      ((l.foldl (fun acc x => dictInsert (pyUpper x.cve_id) x acc) acc).map Prod.fst).Nodup := by
    intro l
    induction l with
    | nil => intro acc h; exact h
    | cons x t ih =>
      intro acc h
      rw [List.foldl_cons]
      exact ih _ (dictInsert_keys_nodup _ _ _ h)
  exact haux _ [] (by simp)

theorem mem_pair_unique {κ ν} (d : List (κ × ν)) : (d.map Prod.fst).Nodup →
    ∀ p q : κ × ν, p ∈ d → q ∈ d → p.1 = q.1 → p = q := by
  induction d with
  | nil => intro _ p q hp _ _; exact absurd hp (List.not_mem_nil p)
  | cons a t ih =>
    intro hnd p q hp hq hk
    simp only [List.map_cons, List.nodup_cons] at hnd
    rcases List.mem_cons.mp hp with rfl | hp2
    · rcases List.mem_cons.mp hq with rfl | hq2
      · rfl
      · have hkq : q.1 ∈ t.map Prod.fst := List.mem_map.mpr ⟨q, hq2, rfl⟩
        rw [← hk] at hkq
        exact absurd hkq hnd.1
    · rcases List.mem_cons.mp hq with rfl | hq2
      · have hkp : p.1 ∈ t.map Prod.fst := List.mem_map.mpr ⟨p, hp2, rfl⟩
        rw [hk] at hkp
        exact absurd hkp hnd.1
      · exact ih hnd.2 p q hp2 hq2 hk

/-- C5: after `build_lookup_dict(use_nist_mapping=False)`, for a corpus
record with no compound configurations and any identifier uri,
`get_cves_from_matched_cpes({uri})` contains the record's id iff its direct
identifier list contains an identifier with that uri. -/
theorem c5_exact_resolution (d : CVEDataset) (md : CPE → Option (List CPE)) (r : CVE)
    (uri : PStr)
    (hr : r ∈ (build_lookup_dict d false md).cves.map (fun p => p.2))
    (hcfg : r.vulnerable_cpe_configurations = []) :
    r.cve_id ∈ get_cves_from_matched_cpes (build_lookup_dict d false md) [uri] ↔
      ∃ c ∈ r.vulnerable_cpes, c.uri = uri := by
  simp only [build_lookup_dict] at hr
  have hrP : ∃ p ∈ rekeyCves d.cves, p.2 = r := by
    rcases List.mem_map.mp hr with ⟨p, hp, rfl⟩
    exact ⟨p, hp, rfl⟩
  have huniq : ∀ cv ∈ (rekeyCves d.cves).map (fun p => p.2), cv.cve_id = r.cve_id → cv = r := by
    intro cv hcv hid
    rcases List.mem_map.mp hcv with ⟨q, hq, rfl⟩
    rcases hrP with ⟨p, hp, hpr⟩
    have hkq := rekey_key_inv d.cves q hq
    have hkp := rekey_key_inv d.cves p hp
    have hqp : q = p := mem_pair_unique _ (rekey_keys_nodup d.cves) q p hq hp
      (by rw [hkq, hkp, hpr, hid])
    rw [hqp, hpr]
  have hexact : ∀ id, id ∈ get_cves_from_exactly_matched_cpes (build_lookup_dict d false md)
      [uri] ↔ ∃ cve ∈ (rekeyCves d.cves).map (fun p => p.2), cve.cve_id = id ∧
        ∃ c ∈ cve.vulnerable_cpes, c.uri = uri := by
    intro id
    unfold get_cves_from_exactly_matched_cpes get_cve_ids_for_cpe_uri
    rw [mem_dedupFirst]
    simp only [List.map_cons, List.map_nil, List.flatten_cons, List.flatten_nil,
      List.append_nil, build_lookup_dict]
    have hfold := buildLookupFold_mem md ((rekeyCves d.cves).map (fun p => p.2)) [] uri id
    have hsimp : (id ∈ (dictLookup ([] : List (PStr × List PStr)) uri).getD [] ∨
        ∃ cve ∈ (rekeyCves d.cves).map (fun p => p.2), cve.cve_id = id ∧
          ∃ c ∈ cve.vulnerable_cpes, c.uri = uri) ↔
        ∃ cve ∈ (rekeyCves d.cves).map (fun p => p.2), cve.cve_id = id ∧
          ∃ c ∈ cve.vulnerable_cpes, c.uri = uri := by
      constructor
      · rintro (h | h)
        · exact absurd h (List.not_mem_nil id)
        · exact h
      · exact Or.inr
    exact hfold.trans hsimp
  have hconf : ∀ id, id ∈ get_cves_from_cpe_configurations (build_lookup_dict d false md)
      [uri] → ∃ cve ∈ (rekeyCves d.cves).map (fun p => p.2),
        cve.vulnerable_cpe_configurations ≠ [] ∧ cve.cve_id = id := by
    intro id hid
    unfold get_cves_from_cpe_configurations at hid
    simp only [build_lookup_dict] at hid
    rcases List.mem_map.mp hid with ⟨cve, hcve, rfl⟩
    have hm := List.mem_filter.mp hcve
    have hm2 := List.mem_filter.mp hm.1
    exact ⟨cve, hm2.1, of_decide_eq_true hm2.2, rfl⟩
  constructor
  · intro hid
    unfold get_cves_from_matched_cpes at hid
    rw [mem_dedupFirst, List.mem_append] at hid
    rcases hid with hid | hid
    · rcases (hexact r.cve_id).mp hid with ⟨cve, hcve, hcid, c, hc, hcu⟩
      have hcr := huniq cve hcve hcid
      rw [hcr] at hc
      exact ⟨c, hc, hcu⟩
    · rcases hconf r.cve_id hid with ⟨cve, hcve, hne, hcid⟩
      have hcr := huniq cve hcve hcid
      rw [hcr] at hne
      exact absurd hcfg hne
  · rintro ⟨c, hc, hcu⟩
    unfold get_cves_from_matched_cpes
    rw [mem_dedupFirst, List.mem_append]
    exact Or.inl ((hexact r.cve_id).mpr ⟨r, hr, rfl, c, hc, hcu⟩)

theorem c5_witness :
    (cveW ∈ (build_lookup_dict dW false (fun _ => none)).cves.map (fun p => p.2) ∧
      cveW.vulnerable_cpe_configurations = []) ∧
    (cveW.cve_id ∈ get_cves_from_matched_cpes (build_lookup_dict dW false (fun _ => none))
        [pstr "cpe:2.3:a:v:prod:1.0"] ↔
      ∃ c ∈ cveW.vulnerable_cpes, c.uri = pstr "cpe:2.3:a:v:prod:1.0") :=
  ⟨⟨by decide, by decide⟩,
    c5_exact_resolution dW (fun _ => none) cveW (pstr "cpe:2.3:a:v:prod:1.0")
      (by decide) (by decide)⟩
